import Mathlib

/-!
Shallow embedding of the narrow-band level-set engine of
`src/external/BitP_Geom/src/levelset/LevelSetMesh.cpp` (bitpit), together
with proofs of the specification claims about it.

Cell identifiers are `Int` (C++ `long`); an adjacency value `< 0` means the
neighbor does not exist.  Real-valued quantities that feed `sqrt` live in
`ℝ`; purely combinatorial quantities (levels, lattice indices) live in
`ℕ`/`ℤ`; the Cartesian spacings live in `ℚ` where no `sqrt` is involved.
-/

/-- Per-cell level-set record, mirroring `LSInfo { double value; int active; }`
of the store `info`.  `active = 0` is the flag value the Eikonal stencil tests
for a usable (in-band, computed) neighbor. -/
structure LSInfo where
  value : ℝ
  active : ℤ

/-- Entity kind of an adaptation record; only `ENTITY_CELL` records are
processed by the band maintainer. -/
inductive Entity where
  | cell
  | other
deriving DecidableEq

/-- One `bitpit::Adaption::Info` record: entity kind, previous (parent)
identifiers, current (child) identifiers. -/
structure AdaptInfo where
  entity : Entity
  previous : List Int
  current : List Int

/-- Engine state visible to the claims: the member `RSearch` (`none` models
a never-assigned radius) and the sparse narrow-band store `info`, embedded
as an association list from cell id to record (iteration order = list
order, as for the source `PiercedVector`). -/
structure LSState where
  RSearch : Option ℝ
  info : List (Int × LSInfo)

/-- `LevelSet::isInNarrowBand(id)`.  Modelled from the spec: the body lives
in `LevelSet.cpp`, which is not under `src/`; per spec §4.1 it returns
whether a record for `id` is present and active (`active = 0` being the
in-band-computed flag value the in-src Eikonal stencil tests). -/
def isInNarrowBand (info : List (Int × LSInfo)) (id : Int) : Bool :=
  match info.lookup id with
  | some r => decide (r.active = 0)
  | none => false

/-- `LevelSetCartesian::computeSizeNarrowBand`: ignores the visitor
(`BITPIT_UNUSED`) and folds `RSearch = max(RSearch, getSpacing d)` over the
dimensions starting from `-1`. -/
def cartesianComputeSizeNarrowBand {V : Type} (visitor : V) (dim : ℕ)
    (spacing : ℕ → ℚ) : ℚ :=
  let _ := visitor
  (List.range dim).foldl (fun r d => max r (spacing d)) (-1)

/-- `LevelSetCartesian::updateSizeNarrowBand`: ignores the mapper
(`BITPIT_UNUSED`) and folds the same maximum over the spacings. -/
def cartesianUpdateSizeNarrowBand (dim : ℕ) (spacing : ℕ → ℚ)
    (mapper : List AdaptInfo) : ℚ :=
  let _ := mapper
  (List.range dim).foldl (fun r d => max r (spacing d)) (-1)

/-- `LevelSetOctree::computeRSearchFromLevel`:
`levelToSize(level) * sqrt(11) / 2`.  `levelToSize` belongs to the external
octree kernel (`PabloUniform`) and is passed as a parameter. -/
noncomputable def computeRSearchFromLevel (levelToSize : ℕ → ℝ) (level : ℕ) : ℝ :=
  levelToSize level * Real.sqrt 11 / 2

/-- The flagged-cell scan of `LevelSetOctree::computeSizeNarrowBand`
(lines 291-294): starting from `level = 100`, every flagged cell lowers
`level` to the minimum with its refinement level. -/
def levelFromFlagged (cellLevel : Int → ℕ) (cells : List (Int × Bool)) : ℕ :=
  cells.foldl (fun lv c => if c.2 then min lv (cellLevel c.1) else lv) 100

/-- The radius produced by `computeSizeNarrowBand` from a flagged-cell scan:
`computeRSearchFromLevel` applied to the minimum flagged level. -/
noncomputable def rSearchFromFlagged (levelToSize : ℕ → ℝ) (cellLevel : Int → ℕ)
    (cells : List (Int × Bool)) : ℝ :=
  computeRSearchFromLevel levelToSize (levelFromFlagged cellLevel cells)

namespace LevelFromFlagged

theorem foldl_le_init (cellLevel : Int → ℕ) (cells : List (Int × Bool))
    (i : ℕ) :
    cells.foldl (fun lv c => if c.2 then min lv (cellLevel c.1) else lv) i ≤ i := by
  induction cells generalizing i with
  | nil => simp
  | cons c cs ih =>
    by_cases hc : c.2 <;> simp [hc]
    · exact le_trans (ih _) (min_le_left _ _)
    · exact ih i

theorem foldl_le_flagged (cellLevel : Int → ℕ) (cells : List (Int × Bool))
    (i : ℕ) (c : Int × Bool) (hc : c ∈ cells) (hf : c.2 = true) :
    cells.foldl (fun lv c => if c.2 then min lv (cellLevel c.1) else lv) i ≤
      cellLevel c.1 := by
  induction cells generalizing i with
  | nil => simp at hc
  | cons d ds ih =>
    rcases List.mem_cons.mp hc with h | h
    · subst h
      simp [hf]
      exact le_trans (foldl_le_init _ _ _) (min_le_right _ _)
    · by_cases hd : d.2 <;> simp [hd] <;> exact ih _ h

theorem foldl_attained (cellLevel : Int → ℕ) (cells : List (Int × Bool))
    (i : ℕ) :
    cells.foldl (fun lv c => if c.2 then min lv (cellLevel c.1) else lv) i = i ∨
    ∃ c ∈ cells, c.2 = true ∧
      cells.foldl (fun lv c => if c.2 then min lv (cellLevel c.1) else lv) i =
        cellLevel c.1 := by
  induction cells generalizing i with
  | nil => exact Or.inl rfl
  | cons d ds ih =>
    by_cases hd : d.2
    · rcases ih (min i (cellLevel d.1)) with h | ⟨c, hc, hcf, hceq⟩
      · rcases le_or_lt i (cellLevel d.1) with hle | hlt
        · left
          simpa [hd, min_eq_left hle] using h
        · right
          refine ⟨d, List.mem_cons_self _ _, hd, ?_⟩
          simpa [hd, min_eq_right hlt.le] using h
      · right
        exact ⟨c, List.mem_cons_of_mem _ hc, hcf, by simpa [hd] using hceq⟩
    · rcases ih i with h | ⟨c, hc, hcf, hceq⟩
      · left
        simpa [hd] using h
      · right
        exact ⟨c, List.mem_cons_of_mem _ hc, hcf, by simpa [hd] using hceq⟩

end LevelFromFlagged

namespace CartesianMax

theorem foldl_max_ge_init (spacing : ℕ → ℚ) (l : List ℕ) (i : ℚ) :
    i ≤ l.foldl (fun r d => max r (spacing d)) i := by
  induction l generalizing i with
  | nil => simp
  | cons d ds ih => exact le_trans (le_max_left _ _) (ih _)

theorem foldl_max_ge_elem (spacing : ℕ → ℚ) (l : List ℕ) (i : ℚ) (d : ℕ)
    (hd : d ∈ l) : spacing d ≤ l.foldl (fun r e => max r (spacing e)) i := by
  induction l generalizing i with
  | nil => simp at hd
  | cons e es ih =>
    rcases List.mem_cons.mp hd with h | h
    · subst h
      exact le_trans (le_max_right _ _) (foldl_max_ge_init _ _ _)
    · exact ih _ h

theorem foldl_max_attained (spacing : ℕ → ℚ) (l : List ℕ) (i : ℚ) :
    l.foldl (fun r d => max r (spacing d)) i = i ∨
    ∃ d ∈ l, l.foldl (fun r e => max r (spacing e)) i = spacing d := by
  induction l generalizing i with
  | nil => exact Or.inl rfl
  | cons e es ih =>
    rcases ih (max i (spacing e)) with h | ⟨d, hd, hdeq⟩
    · rcases le_or_lt (spacing e) i with hle | hlt
      · left
        simpa [max_eq_left hle] using h
      · right
        refine ⟨e, List.mem_cons_self _ _, ?_⟩
        simpa [max_eq_right hlt.le] using h
    · exact Or.inr ⟨d, List.mem_cons_of_mem _ hd, hdeq⟩

end CartesianMax

/-- Claim C3: for every Cartesian mesh with at least one dimension and
nonnegative spacings, both `computeSizeNarrowBand` and
`updateSizeNarrowBand` set the search radius to exactly the maximum cell
spacing over the spatial dimensions, independent of the surface visitor
(and of the adaptation mapper). -/
theorem cartesian_rsearch_is_max_spacing {V W : Type} (v : V) (w : W)
    (dim : ℕ) (spacing : ℕ → ℚ) (mapper mapper' : List AdaptInfo)
    (hdim : 1 ≤ dim) (hpos : ∀ d < dim, 0 ≤ spacing d) :
    cartesianComputeSizeNarrowBand v dim spacing =
        cartesianComputeSizeNarrowBand w dim spacing ∧
    cartesianUpdateSizeNarrowBand dim spacing mapper =
        cartesianUpdateSizeNarrowBand dim spacing mapper' ∧
    cartesianComputeSizeNarrowBand v dim spacing =
        cartesianUpdateSizeNarrowBand dim spacing mapper ∧
    ∃ m, cartesianComputeSizeNarrowBand v dim spacing = m ∧
      (∃ d < dim, spacing d = m) ∧ ∀ d < dim, spacing d ≤ m := by
  refine ⟨rfl, rfl, rfl, ?_⟩
  unfold cartesianComputeSizeNarrowBand
  rcases CartesianMax.foldl_max_attained spacing (List.range dim) (-1) with
    h | ⟨d, hd, hdeq⟩
  · exfalso
    have h0 : (0 : ℕ) ∈ List.range dim := List.mem_range.mpr hdim
    have hle : spacing 0 ≤ (-1 : ℚ) :=
      le_of_le_of_eq (CartesianMax.foldl_max_ge_elem spacing _ (-1) 0 h0) h
    have : (0 : ℚ) ≤ -1 := le_trans (hpos 0 hdim) hle
    norm_num at this
  · refine ⟨_, rfl, ⟨d, List.mem_range.mp hd, hdeq.symm⟩, ?_⟩
    intro e he
    exact CartesianMax.foldl_max_ge_elem spacing _ (-1) e (List.mem_range.mpr he)

/-- Witness for C3 at `dim = 3`, `spacing d = d + 1`. -/
theorem cartesian_rsearch_is_max_spacing_witness :
    (1 ≤ 3 ∧ ∀ d : ℕ, d < 3 → (0 : ℚ) ≤ (d : ℚ) + 1) ∧
    (cartesianComputeSizeNarrowBand () 3 (fun d => (d : ℚ) + 1) =
        cartesianComputeSizeNarrowBand true 3 (fun d => (d : ℚ) + 1) ∧
     cartesianUpdateSizeNarrowBand 3 (fun d => (d : ℚ) + 1) [] =
        cartesianUpdateSizeNarrowBand 3 (fun d => (d : ℚ) + 1) [] ∧
     cartesianComputeSizeNarrowBand () 3 (fun d => (d : ℚ) + 1) =
        cartesianUpdateSizeNarrowBand 3 (fun d => (d : ℚ) + 1) [] ∧
     ∃ m, cartesianComputeSizeNarrowBand () 3 (fun d => (d : ℚ) + 1) = m ∧
       (∃ d : ℕ, d < 3 ∧ (d : ℚ) + 1 = m) ∧
       ∀ d : ℕ, d < 3 → (d : ℚ) + 1 ≤ m) := by
  constructor
  · exact ⟨by norm_num, fun d _ => by positivity⟩
  · exact cartesian_rsearch_is_max_spacing () true 3 (fun d => (d : ℚ) + 1) [] []
      (by norm_num) (fun d _ => by positivity)

/-- Claim C5: the octree-path radius produced from a flagged-cell scan is
`levelToSize L * sqrt 11 / 2` where `L` is the minimum (coarsest) refinement
level among the flagged cells (assuming some cell is flagged and levels do
not exceed the scan's initializer 100), and `computeRSearchFromLevel`
applies exactly this formula at any level. -/
theorem rsearch_from_flagged_min_level (lts : ℕ → ℝ) (cellLevel : Int → ℕ)
    (cells : List (Int × Bool))
    (h1 : ∃ c ∈ cells, c.2 = true)
    (h2 : ∀ c ∈ cells, c.2 = true → cellLevel c.1 ≤ 100) :
    (∃ L, (∃ c ∈ cells, c.2 = true ∧ cellLevel c.1 = L) ∧
      (∀ c ∈ cells, c.2 = true → L ≤ cellLevel c.1) ∧
      rSearchFromFlagged lts cellLevel cells = lts L * Real.sqrt 11 / 2) ∧
    ∀ lvl, computeRSearchFromLevel lts lvl = lts lvl * Real.sqrt 11 / 2 := by
  refine ⟨?_, fun lvl => rfl⟩
  refine ⟨levelFromFlagged cellLevel cells, ?_, ?_, rfl⟩
  · rcases LevelFromFlagged.foldl_attained cellLevel cells 100 with h | ⟨c, hc, hcf, hceq⟩
    · rcases h1 with ⟨c, hc, hcf⟩
      refine ⟨c, hc, hcf, ?_⟩
      have hle : levelFromFlagged cellLevel cells ≤ cellLevel c.1 :=
        LevelFromFlagged.foldl_le_flagged cellLevel cells 100 c hc hcf
      have hge : cellLevel c.1 ≤ levelFromFlagged cellLevel cells := by
        unfold levelFromFlagged
        rw [h]
        exact h2 c hc hcf
      exact le_antisymm hge hle
    · exact ⟨c, hc, hcf, hceq.symm⟩
  · intro c hc hcf
    exact LevelFromFlagged.foldl_le_flagged cellLevel cells 100 c hc hcf

/-- Witness for C5 at a single flagged cell of level 3. -/
theorem rsearch_from_flagged_min_level_witness :
    ((∃ c ∈ [((5 : Int), true)], c.2 = true) ∧
     (∀ c ∈ [((5 : Int), true)], c.2 = true → (fun _ : Int => 3) c.1 ≤ 100)) ∧
    ((∃ L, (∃ c ∈ [((5 : Int), true)], c.2 = true ∧ (fun _ : Int => 3) c.1 = L) ∧
      (∀ c ∈ [((5 : Int), true)], c.2 = true → L ≤ (fun _ : Int => 3) c.1) ∧
      rSearchFromFlagged (fun _ => 1) (fun _ : Int => 3) [((5 : Int), true)] =
        (1 : ℝ) * Real.sqrt 11 / 2) ∧
     ∀ lvl, computeRSearchFromLevel (fun _ => (1 : ℝ)) lvl =
       (1 : ℝ) * Real.sqrt 11 / 2) := by
  constructor
  · exact ⟨by decide, by decide⟩
  · exact rsearch_from_flagged_min_level (fun _ => 1) (fun _ => 3)
      [((5 : Int), true)] (by decide) (by decide)

/-- Claim C9: with `levelToSize` antitone and nonnegative, a flagged
configuration whose binding (minimum) level is finer (larger) yields a
radius no larger, and one whose binding level is coarser (smaller) yields a
radius no smaller. -/
theorem rsearch_monotone_in_coarsest_level (lts : ℕ → ℝ) (cl cl' : Int → ℕ)
    (cells cells' : List (Int × Bool))
    (hanti : ∀ a b : ℕ, a ≤ b → lts b ≤ lts a)
    (hnn : ∀ l, 0 ≤ lts l)
    (h : levelFromFlagged cl cells ≤ levelFromFlagged cl' cells') :
    rSearchFromFlagged lts cl' cells' ≤ rSearchFromFlagged lts cl cells := by
  unfold rSearchFromFlagged computeRSearchFromLevel
  have h1 : lts (levelFromFlagged cl' cells') ≤ lts (levelFromFlagged cl cells) :=
    hanti _ _ h
  have hs : (0 : ℝ) ≤ Real.sqrt 11 := Real.sqrt_nonneg _
  have h2 := mul_le_mul_of_nonneg_right h1 hs
  linarith

/-- Witness for C9: a level-2 coarsest flagged cell refined to level 5,
with the antitone size map `l ↦ 1 / (l + 1)`. -/
theorem rsearch_monotone_in_coarsest_level_witness :
    ((∀ a b : ℕ, a ≤ b → 1 / ((b : ℝ) + 1) ≤ 1 / ((a : ℝ) + 1)) ∧
     (∀ l : ℕ, (0 : ℝ) ≤ 1 / ((l : ℝ) + 1)) ∧
     levelFromFlagged (fun _ => 2) [((0 : Int), true)] ≤
       levelFromFlagged (fun _ => 5) [((0 : Int), true)]) ∧
    rSearchFromFlagged (fun l => 1 / ((l : ℝ) + 1)) (fun _ => 5)
        [((0 : Int), true)] ≤
      rSearchFromFlagged (fun l => 1 / ((l : ℝ) + 1)) (fun _ => 2)
        [((0 : Int), true)] := by
  have hanti : ∀ a b : ℕ, a ≤ b → 1 / ((b : ℝ) + 1) ≤ 1 / ((a : ℝ) + 1) := by
    intro a b hab
    apply one_div_le_one_div_of_le
    · positivity
    · have : (a : ℝ) ≤ (b : ℝ) := Nat.cast_le.mpr hab
      linarith
  have hnn : ∀ l : ℕ, (0 : ℝ) ≤ 1 / ((l : ℝ) + 1) := fun l => by positivity
  refine ⟨⟨hanti, hnn, by decide⟩, ?_⟩
  exact rsearch_monotone_in_coarsest_level (fun l => 1 / ((l : ℝ) + 1))
    (fun _ => 2) (fun _ => 5) [((0 : Int), true)] [((0 : Int), true)]
    hanti hnn (by decide)

/-- One axis of the upwind stencil of `LevelSetCartesian::updateEikonal`
(lines 112-129).  Faithful to the source: the reference
`LSInfo &lsInfo = info[J]` is bound at the left neighbor `jl` and is NOT
rebound when `J` is reassigned to the right neighbor `jr`, so the
right-neighbor branch tests `jr >= 0` but reads the left record's
`active` flag and `value`. -/
def axisUpwind (s : ℝ) (info : Int → LSInfo) (jl jr : Int) : ℝ :=
  let value : ℝ := 1e18
  let lsInfo := info jl
  let value := if 0 ≤ jl ∧ lsInfo.active = 0 then min (s * lsInfo.value) value
    else value
  if 0 ≤ jr ∧ lsInfo.active = 0 then min (s * lsInfo.value) value else value

/-- `LevelSetCartesian::updateEikonal(s, g, I)`: accumulate the quadratic
form `a φ² + b φ + c` over the axes whose upwind value cleared the sentinel
(`value < 1e17`), then return the larger root
`-(b - sqrt(b² - 4a(c - g²))) / (2a)`.  The cell's face adjacencies are
`adj` (face `2d` = left, `2d+1` = right along axis `d`, negative = none),
the store lookup is `info`, and `spacing` is the per-axis grid spacing. -/
noncomputable def updateEikonal (s g : ℝ) (dim : ℕ) (spacing : ℕ → ℝ)
    (adj : ℕ → Int) (info : Int → LSInfo) : ℝ :=
  let abc := (List.range dim).foldl (fun (abc : ℝ × ℝ × ℝ) d =>
    let value := axisUpwind s info (adj (2 * d)) (adj (2 * d + 1))
    if value < 1e17 then
      let h2 := spacing d ^ 2
      (abc.1 + 1 / h2, abc.2.1 + (-2) * value / h2, abc.2.2 + value ^ 2 / h2)
    else abc) (0, 0, 0)
  let delta := abc.2.1 ^ 2 - 4 * abc.1 * (abc.2.2 - g ^ 2)
  let root := -(abc.2.1 - Real.sqrt delta) / (2 * abc.1)
  root

/-- On a 1-dimensional stencil with contributing upwind value `u` and
spacing `h > 0`, speed `g = 1`, the quadratic form solves exactly to
`u + h`. -/
theorem one_axis_eikonal (s h : ℝ) (adj : ℕ → Int) (info : Int → LSInfo)
    (hh : 0 < h)
    (hu : axisUpwind s info (adj 0) (adj 1) < 1e17) :
    updateEikonal s 1 1 (fun _ => h) adj info =
      axisUpwind s info (adj 0) (adj 1) + h := by
  have hrange : List.range 1 = [0] := rfl
  unfold updateEikonal
  rw [hrange]
  simp only [List.foldl_cons, List.foldl_nil, Nat.mul_zero, Nat.zero_add]
  rw [if_pos hu]
  set u := axisUpwind s info (adj 0) (adj 1) with hudef
  have hh2 : h ^ 2 ≠ 0 := by positivity
  simp only [zero_add]
  have hδ : ((-2) * u / h ^ 2) ^ 2 -
      4 * (1 / h ^ 2) * (u ^ 2 / h ^ 2 - 1 ^ 2) = (2 / h) ^ 2 := by
    field_simp
    ring
  rw [hδ, Real.sqrt_sq (by positivity)]
  field_simp
  ring

/-- Claim C1 (divergence evaluation): both face neighbors of the single
axis exist and hold active records (left value 5, right value 1), `s = 1`,
`g = 1`, `h = 1`.  The claim's per-axis upwind minimum would be
`min (1*5) (1*1) = 1` and the solve `1 + 1 = 2`; the source's
right-neighbor branch instead re-reads the left record, so the axis upwind
value is 5 and the solver returns 6. -/
theorem updateEikonal_right_branch_reads_left_record :
    axisUpwind 1 (fun j => if j = 10 then ⟨5, 0⟩ else ⟨1, 0⟩) 10 11 = 5 ∧
    (fun j => if j = (10 : Int) then LSInfo.mk 5 0 else LSInfo.mk 1 0) 11 =
      LSInfo.mk 1 0 ∧
    updateEikonal 1 1 1 (fun _ => 1)
      (fun f => if f = 0 then (10 : Int) else 11)
      (fun j => if j = 10 then ⟨5, 0⟩ else ⟨1, 0⟩) = 6 := by
  have hup : axisUpwind 1 (fun j => if j = 10 then ⟨5, 0⟩ else ⟨1, 0⟩) 10 11 = 5 := by
    unfold axisUpwind
    norm_num
  refine ⟨hup, by norm_num, ?_⟩
  have hadj : ∀ f : ℕ, (fun f => if f = 0 then (10 : Int) else 11) f =
      if f = 0 then (10 : Int) else 11 := fun _ => rfl
  have h1 := one_axis_eikonal 1 1 (fun f => if f = 0 then (10 : Int) else 11)
    (fun j => if j = 10 then ⟨5, 0⟩ else ⟨1, 0⟩) one_pos
    (by norm_num [hup])
  rw [h1]
  norm_num [hup]

/-- Claim C7 counterexample: one axis, left neighbor existing and active
with value `v0 = 2`, right neighbor absent, `h = 1`, `g = 1`, `s = -1`: the
solver returns `s*v0 + h = -1`, whereas the claim predicts
`v0 + s*h = 1`. -/
theorem updateEikonal_one_axis_sign_counterexample :
    updateEikonal (-1) 1 1 (fun _ => 1)
      (fun f => if f = 0 then (10 : Int) else -1)
      (fun _ => ⟨2, 0⟩) = -1 ∧
    ((-1 : ℝ) ≠ 2 + (-1) * 1) := by
  have hup : axisUpwind (-1) (fun _ => ⟨2, 0⟩) 10 (-1) = -2 := by
    unfold axisUpwind
    norm_num
  have h1 := one_axis_eikonal (-1) 1 (fun f => if f = 0 then (10 : Int) else -1)
    (fun _ => ⟨2, 0⟩) one_pos (by norm_num [hup])
  rw [h1]
  norm_num [hup]

/-- Claim C7 (amended): on a single spatial axis whose left (even-face)
neighbor exists and holds an active record of value `v0` with `s * v0`
below the `1e17` sentinel, and whose right neighbor does not exist, with
spacing `h > 0` and speed `g = 1`, `updateEikonal` returns exactly
`s * v0 + h` (which equals `v0 + s * h` when `s = 1`). -/
theorem updateEikonal_one_axis_exact (s v0 h : ℝ) (adj : ℕ → Int)
    (info : Int → LSInfo) (hh : 0 < h) (hl : 0 ≤ adj 0) (hr : adj 1 < 0)
    (hinfo : info (adj 0) = ⟨v0, 0⟩) (hv : s * v0 < 1e17) :
    updateEikonal s 1 1 (fun _ => h) adj info = s * v0 + h := by
  have hup : axisUpwind s info (adj 0) (adj 1) = s * v0 := by
    unfold axisUpwind
    rw [hinfo]
    simp only [hl, not_le.mpr hr, true_and, false_and, if_true, if_false]
    exact min_eq_left (by norm_num at hv ⊢; linarith)
  rw [one_axis_eikonal s h adj info hh (by rw [hup]; exact hv), hup]

/-- Witness for the amended C7 at `s = 1`, `v0 = 2`, `h = 1`. -/
theorem updateEikonal_one_axis_exact_witness :
    ((0 : ℝ) < 1 ∧ (0 : Int) ≤ 10 ∧ (-1 : Int) < 0 ∧
     (fun _ : Int => LSInfo.mk 2 0) 10 = LSInfo.mk 2 0 ∧
     (1 : ℝ) * 2 < 1e17) ∧
    updateEikonal 1 1 1 (fun _ => 1)
      (fun f => if f = 0 then (10 : Int) else -1)
      (fun _ => ⟨2, 0⟩) = 1 * 2 + 1 := by
  refine ⟨⟨one_pos, by norm_num, by norm_num, rfl, by norm_num⟩, ?_⟩
  exact updateEikonal_one_axis_exact 1 2 1
    (fun f => if f = 0 then (10 : Int) else -1) (fun _ => ⟨2, 0⟩)
    one_pos (by norm_num) (by norm_num) rfl (by norm_num)

/-- The parent loop of `LevelSetOctree::updateSizeNarrowBand` (lines
340-347) for one adaptation record: walk the previous (parent) ids; every
parent that is in the pre-adaptation band sets the record's flag and is
erased from the working set `nb`. -/
def procParents (band : Int → Bool) : List Int → Finset Int → Finset Int × Bool
  | [], nb => (nb, false)
  | p :: ps, nb =>
    if band p then ((procParents band ps (nb.erase p)).1, true)
    else procParents band ps nb

/-- The first record loop of `updateSizeNarrowBand` (lines 335-351): for
each record, the flag starts false and is raised only for `ENTITY_CELL`
records with an in-band parent; in-band parents are erased from `nb`. -/
def pass1 (band : Int → Bool) : List AdaptInfo → Finset Int → Finset Int × List Bool
  | [], nb => (nb, [])
  | r :: rs, nb =>
    if r.entity = Entity.cell then
      ((pass1 band rs (procParents band r.previous nb).1).1,
       (procParents band r.previous nb).2 ::
         (pass1 band rs (procParents band r.previous nb).1).2)
    else
      ((pass1 band rs nb).1, false :: (pass1 band rs nb).2)

/-- Insertion of all current (child) ids of a record into `nb`
(lines 359-362). -/
def insertList (xs : List Int) (nb : Finset Int) : Finset Int :=
  xs.foldl (fun s id => insert id s) nb

/-- The second record loop of `updateSizeNarrowBand` (lines 355-368):
records are walked in step with their flags; a flagged `ENTITY_CELL`
record has all of its current (child) ids inserted into `nb`. -/
def pass2 : List AdaptInfo → List Bool → Finset Int → Finset Int
  | [], _, nb => nb
  | _ :: _, [], nb => nb
  | r :: rs, f :: fs, nb =>
    if r.entity = Entity.cell ∧ f = true then pass2 rs fs (insertList r.current nb)
    else pass2 rs fs nb

/-- The whole working-set computation of `updateSizeNarrowBand`:
both record loops applied to the initial working set `nb0`. -/
def updateNB (band : Int → Bool) (mapper : List AdaptInfo)
    (nb0 : Finset Int) : Finset Int :=
  pass2 mapper (pass1 band mapper nb0).2 (pass1 band mapper nb0).1

theorem procParents_snd (band : Int → Bool) (ps : List Int) (nb : Finset Int) :
    (procParents band ps nb).2 = ps.any band := by
  induction ps generalizing nb with
  | nil => simp [procParents]
  | cons p ps ih =>
    by_cases hb : band p <;> simp [procParents, hb, ih]

theorem procParents_cons (band : Int → Bool) (p : Int) (ps : List Int)
    (nb : Finset Int) :
    procParents band (p :: ps) nb =
      if band p then ((procParents band ps (nb.erase p)).1, true)
      else procParents band ps nb := rfl

theorem procParents_fst_mem (band : Int → Bool) (ps : List Int)
    (nb : Finset Int) (x : Int) :
    x ∈ (procParents band ps nb).1 ↔ x ∈ nb ∧ ¬(band x = true ∧ x ∈ ps) := by
  induction ps generalizing nb with
  | nil => simp [procParents]
  | cons p ps ih =>
    rw [procParents_cons]
    by_cases hb : band p = true
    · rw [if_pos hb]
      show x ∈ (procParents band ps (nb.erase p)).1 ↔ _
      rw [ih]
      simp only [Finset.mem_erase, List.mem_cons]
      by_cases hx : x = p
      · subst hx
        simp [hb]
      · simp only [hx, ne_eq, not_false_iff, true_and, false_or]
    · rw [if_neg hb, ih]
      simp only [List.mem_cons]
      by_cases hx : x = p
      · subst hx
        constructor
        · rintro ⟨hnb, _⟩
          exact ⟨hnb, fun hc => hb hc.1⟩
        · rintro ⟨hnb, _⟩
          exact ⟨hnb, fun hc => hb hc.1⟩
      · simp only [hx, false_or]

theorem pass1_snd (band : Int → Bool) (rs : List AdaptInfo) (nb : Finset Int) :
    (pass1 band rs nb).2 =
      rs.map (fun r => if r.entity = Entity.cell then r.previous.any band
        else false) := by
  induction rs generalizing nb with
  | nil => simp [pass1]
  | cons r rs ih =>
    by_cases hr : r.entity = Entity.cell <;>
      simp [pass1, hr, ih, procParents_snd]

theorem pass1_fst_mem (band : Int → Bool) (rs : List AdaptInfo)
    (nb : Finset Int) (x : Int) :
    x ∈ (pass1 band rs nb).1 ↔
      x ∈ nb ∧ ¬(band x = true ∧
        ∃ r ∈ rs, r.entity = Entity.cell ∧ x ∈ r.previous) := by
  induction rs generalizing nb with
  | nil => simp [pass1]
  | cons r rs ih =>
    by_cases hr : r.entity = Entity.cell
    · simp only [pass1, hr, if_true]
      rw [ih, procParents_fst_mem]
      constructor
      · rintro ⟨⟨hx, h1⟩, h2⟩
        refine ⟨hx, ?_⟩
        rintro ⟨hbx, r', hr', hcell, hprev⟩
        rcases List.mem_cons.mp hr' with rfl | hr'
        · exact h1 ⟨hbx, hprev⟩
        · exact h2 ⟨hbx, r', hr', hcell, hprev⟩
      · rintro ⟨hx, h⟩
        refine ⟨⟨hx, ?_⟩, ?_⟩
        · rintro ⟨hbx, hprev⟩
          exact h ⟨hbx, r, List.mem_cons_self _ _, hr, hprev⟩
        · rintro ⟨hbx, r', hr', hcell, hprev⟩
          exact h ⟨hbx, r', List.mem_cons_of_mem _ hr', hcell, hprev⟩
    · simp only [pass1, hr, if_false]
      rw [ih]
      constructor
      · rintro ⟨hx, h⟩
        refine ⟨hx, ?_⟩
        rintro ⟨hbx, r', hr', hcell, hprev⟩
        rcases List.mem_cons.mp hr' with rfl | hr'
        · exact hr hcell
        · exact h ⟨hbx, r', hr', hcell, hprev⟩
      · rintro ⟨hx, h⟩
        refine ⟨hx, ?_⟩
        rintro ⟨hbx, r', hr', hcell, hprev⟩
        exact h ⟨hbx, r', List.mem_cons_of_mem _ hr', hcell, hprev⟩

theorem insertList_mem (xs : List Int) (nb : Finset Int) (x : Int) :
    x ∈ insertList xs nb ↔ x ∈ xs ∨ x ∈ nb := by
  induction xs generalizing nb with
  | nil => simp [insertList]
  | cons a xs ih =>
    show x ∈ insertList xs (insert a nb) ↔ _
    rw [ih]
    simp only [Finset.mem_insert, List.mem_cons]
    tauto

theorem pass2_cons (r : AdaptInfo) (rs : List AdaptInfo) (f : Bool)
    (fs : List Bool) (nb : Finset Int) :
    pass2 (r :: rs) (f :: fs) nb =
      if r.entity = Entity.cell ∧ f = true then
        pass2 rs fs (insertList r.current nb)
      else pass2 rs fs nb := rfl

theorem pass2_mem (band : Int → Bool) (rs : List AdaptInfo) (nb : Finset Int)
    (x : Int) :
    x ∈ pass2 rs
        (rs.map (fun r => if r.entity = Entity.cell then r.previous.any band
          else false)) nb ↔
      x ∈ nb ∨ ∃ r ∈ rs, r.entity = Entity.cell ∧
        (∃ p ∈ r.previous, band p = true) ∧ x ∈ r.current := by
  induction rs generalizing nb with
  | nil => simp [pass2]
  | cons r rs ih =>
    simp only [List.map_cons]
    rw [pass2_cons]
    by_cases hr : r.entity = Entity.cell
    · by_cases hany : r.previous.any band = true
      · rw [if_pos ⟨hr, by rw [if_pos hr]; exact hany⟩, ih, insertList_mem]
        rcases List.any_eq_true.mp hany with ⟨p, hp, hbp⟩
        constructor
        · rintro ((hcur | hnb) | ⟨r', hr', hcell, hex, hcur⟩)
          · exact Or.inr ⟨r, List.mem_cons_self _ _, hr, ⟨p, hp, hbp⟩, hcur⟩
          · exact Or.inl hnb
          · exact Or.inr ⟨r', List.mem_cons_of_mem _ hr', hcell, hex, hcur⟩
        · rintro (hnb | ⟨r', hr', hcell, hex, hcur⟩)
          · exact Or.inl (Or.inr hnb)
          · rcases List.mem_cons.mp hr' with rfl | hr'
            · exact Or.inl (Or.inl hcur)
            · exact Or.inr ⟨r', hr', hcell, hex, hcur⟩
      · have hcond : ¬(r.entity = Entity.cell ∧
            (if r.entity = Entity.cell then r.previous.any band else false) =
              true) := by
          rintro ⟨hc, hf⟩
          rw [if_pos hc] at hf
          exact hany hf
        rw [if_neg hcond, ih]
        constructor
        · rintro (hnb | ⟨r', hr', hcell, hex, hcur⟩)
          · exact Or.inl hnb
          · exact Or.inr ⟨r', List.mem_cons_of_mem _ hr', hcell, hex, hcur⟩
        · rintro (hnb | ⟨r', hr', hcell, hex, hcur⟩)
          · exact Or.inl hnb
          · rcases List.mem_cons.mp hr' with rfl | hr'
            · exact absurd (List.any_eq_true.mpr
                (by rcases hex with ⟨p, hp, hbp⟩; exact ⟨p, hp, hbp⟩)) hany
            · exact Or.inr ⟨r', hr', hcell, hex, hcur⟩
    · have hcond : ¬(r.entity = Entity.cell ∧
          (if r.entity = Entity.cell then r.previous.any band else false) =
            true) := fun hc => hr hc.1
      rw [if_neg hcond, ih]
      constructor
      · rintro (hnb | ⟨r', hr', hcell, hex, hcur⟩)
        · exact Or.inl hnb
        · exact Or.inr ⟨r', List.mem_cons_of_mem _ hr', hcell, hex, hcur⟩
      · rintro (hnb | ⟨r', hr', hcell, hex, hcur⟩)
        · exact Or.inl hnb
        · rcases List.mem_cons.mp hr' with rfl | hr'
          · exact absurd hcell hr
          · exact Or.inr ⟨r', hr', hcell, hex, hcur⟩

/-- Claim C2: starting from a working set holding exactly the
pre-adaptation in-band ids, the two record loops of
`updateSizeNarrowBand` produce a set whose members are exactly: the
pre-adaptation in-band ids that are not a parent of any `ENTITY_CELL`
record, together with the current (child) ids of every `ENTITY_CELL`
record having at least one in-band parent.  Records with no in-band
parent, and non-cell records, contribute and remove nothing. -/
theorem updateNB_membership (band : Int → Bool) (mapper : List AdaptInfo)
    (nb0 : Finset Int) (h0 : ∀ y, y ∈ nb0 ↔ band y = true) (x : Int) :
    x ∈ updateNB band mapper nb0 ↔
      ((band x = true ∧
          ¬∃ r ∈ mapper, r.entity = Entity.cell ∧ x ∈ r.previous) ∨
       ∃ r ∈ mapper, r.entity = Entity.cell ∧
         (∃ p ∈ r.previous, band p = true) ∧ x ∈ r.current) := by
  unfold updateNB
  rw [pass1_snd, pass2_mem, pass1_fst_mem, h0]
  constructor
  · rintro (⟨hbx, h⟩ | h)
    · exact Or.inl ⟨hbx, fun hE => h ⟨hbx, hE⟩⟩
    · exact Or.inr h
  · rintro (⟨hbx, h⟩ | h)
    · exact Or.inl ⟨hbx, fun hc => h hc.2⟩
    · exact Or.inr h

/-- Witness for C2: one coarsening record merging in-band parent 1 into
children 2 and 3; child 2 ends up in the band. -/
theorem updateNB_membership_witness :
    (∀ y : Int, y ∈ ({1} : Finset Int) ↔ (decide (y = 1)) = true) ∧
    ((2 : Int) ∈ updateNB (fun y => decide (y = 1))
        [⟨Entity.cell, [1], [2, 3]⟩] {1} ↔
      (((decide ((2 : Int) = 1)) = true ∧
          ¬∃ r ∈ [(⟨Entity.cell, [1], [2, 3]⟩ : AdaptInfo)],
            r.entity = Entity.cell ∧ (2 : Int) ∈ r.previous) ∨
       ∃ r ∈ [(⟨Entity.cell, [1], [2, 3]⟩ : AdaptInfo)],
         r.entity = Entity.cell ∧
           (∃ p ∈ r.previous, (decide (p = 1)) = true) ∧
           (2 : Int) ∈ r.current)) := by
  have h0 : ∀ y : Int, y ∈ ({1} : Finset Int) ↔ (decide (y = 1)) = true := by
    intro y
    simp
  exact ⟨h0, updateNB_membership (fun y => decide (y = 1))
    [⟨Entity.cell, [1], [2, 3]⟩] {1} h0 2⟩

/-- The integer lattice interval swept by one loop
`for (x = a; x < b; ++x)` of the proxy-grid sampling: the half-open range
`[a, b)`. -/
def rangeZ (a b : ℤ) : List ℤ :=
  (List.range (b - a).toNat).map (fun n : ℕ => a + (n : ℤ))

/-- The per-cell proxy-grid sampling of
`LevelSetOctree::computeSizeNarrowBand` (lines 277-288): the triple nested
loop over lattice indices from `i0` (inclusive) to `i1` (exclusive) in each
axis, OR-ing the proxy band membership of the sampled linear ids.
`i0`, `i1` are the nearest-vertex lookups of the octree cell's two diagonal
corners; `lid` is `cmesh.getCellLinearId`; `inBand` is the auxiliary
Cartesian level-set's `isInNarrowBand`. -/
def cellFlagged (inBand : Int → Bool) (lid : ℤ → ℤ → ℤ → Int)
    (i0 i1 : ℤ × ℤ × ℤ) : Bool :=
  (rangeZ i0.2.2 i1.2.2).any fun k =>
    (rangeZ i0.2.1 i1.2.1).any fun j =>
      (rangeZ i0.1 i1.1).any fun i => inBand (lid i j k)

theorem rangeZ_mem (a b x : ℤ) : x ∈ rangeZ a b ↔ a ≤ x ∧ x < b := by
  unfold rangeZ
  rw [List.mem_map]
  constructor
  · rintro ⟨n, hn, rfl⟩
    rw [List.mem_range] at hn
    omega
  · rintro ⟨h1, h2⟩
    refine ⟨(x - a).toNat, ?_, by omega⟩
    rw [List.mem_range]
    omega

/-- The snapshot loop of `updateSizeNarrowBand` (lines 325-332): every id
iterated in the store that passes `isInNarrowBand` enters the working
set. -/
def snapshotNB (info : List (Int × LSInfo)) : Finset Int :=
  ((info.map Prod.fst).filter (fun id => isInNarrowBand info id)).toFinset

/-- The coarsest-level scan over the final working set
(lines 370-372): `level = 100` lowered by `min` with every member's
refinement level (`min` is commutative and associative, so the iteration
order of the working set is irrelevant and a fold is a faithful model). -/
def minLevel (cellLevel : Int → ℕ) (nb : Finset Int) : ℕ :=
  Finset.fold min 100 cellLevel nb

/-- `LevelSetOctree::updateSizeNarrowBand`: a pure function of the engine
state and the adaptation batch — the body only builds the local working set
`nb` and flag vector and returns
`computeRSearchFromLevel(min level over nb)`; it writes neither `info` nor
`RSearch`.  `levelToSize` and `getCellLevel` belong to the external octree
kernel. -/
noncomputable def octreeUpdateSizeNarrowBand (lts : ℕ → ℝ)
    (cellLevel : Int → ℕ) (st : LSState) (mapper : List AdaptInfo) : ℝ :=
  computeRSearchFromLevel lts
    (minLevel cellLevel
      (updateNB (isInNarrowBand st.info) mapper (snapshotNB st.info)))

/-- `LevelSetOctree::update`: compute the new radius, hand the UNMODIFIED
state together with the batch and the new radius to the external visitor's
`updateLSInNarrowBand`, and only afterwards overwrite the member
`RSearch` with the new radius. -/
noncomputable def octreeUpdate (lts : ℕ → ℝ) (cellLevel : Int → ℕ)
    (visitor : LSState → List AdaptInfo → ℝ → LSState)
    (st : LSState) (mapper : List AdaptInfo) : LSState :=
  let newRSearch := octreeUpdateSizeNarrowBand lts cellLevel st mapper
  let st2 := visitor st mapper newRSearch
  { st2 with RSearch := some newRSearch }

/-- Modelled from the spec: `CGElem::intersectBoxBox` lives in the external
computational-geometry module (`CGBase`), not under `src/`; per spec §4.2
it intersects two axis-aligned bounding boxes, i.e. succeeds exactly when
the boxes overlap in every coordinate direction. -/
def intersectBoxBox (a0 a1 b0 b1 : Fin 3 → ℚ) : Bool :=
  decide (∀ i : Fin 3, max (a0 i) (b0 i) ≤ min (a1 i) (b1 i))

/-- `LevelSetOctree::computeSizeNarrowBand`: if the mesh and surface
bounding boxes intersect, flag every real octree cell through the
proxy-grid sampling and assign `RSearch` from the coarsest flagged level;
otherwise do nothing (no member is written).  The proxy band `proxyBand`,
the nearest-vertex lookups `loc0`/`loc1`, the linear indexer `lid` and the
level map `cellLevel` stand for the external mesh-kernel services the
branch consumes. -/
noncomputable def octreeComputeSizeNarrowBand
    (meshBB0 meshBB1 surfBB0 surfBB1 : Fin 3 → ℚ) (lts : ℕ → ℝ)
    (cellLevel : Int → ℕ) (cells : List Int) (proxyBand : Int → Bool)
    (loc0 loc1 : Int → ℤ × ℤ × ℤ) (lid : ℤ → ℤ → ℤ → Int)
    (st : LSState) : LSState :=
  if intersectBoxBox meshBB0 meshBB1 surfBB0 surfBB1 then
    { st with RSearch := some (rSearchFromFlagged lts cellLevel
        (cells.map (fun c => (c, cellFlagged proxyBand lid (loc0 c) (loc1 c))))) }
  else st

/-- Claim C6 counterexample: proxy band containing exactly the linear id of
lattice point `(1,1,1)`, corner lookups `i0 = (0,0,0)`, `i1 = (1,1,1)`.
The point `(1,1,1)` lies in the INCLUSIVE lattice range between `i0` and
`i1` and its proxy cell is in-band, so the claim requires the cell to be
flagged; the source's loops run `i0 <= idx < i1` and sample only `(0,0,0)`,
so the cell is not flagged. -/
theorem cellFlagged_inclusive_range_counterexample :
    ¬(cellFlagged (fun id => decide (id = 7))
        (fun i j k => i + 2 * j + 4 * k) (0, 0, 0) (1, 1, 1) = true ↔
      ∃ i j k : ℤ, 0 ≤ i ∧ i ≤ 1 ∧ 0 ≤ j ∧ j ≤ 1 ∧ 0 ≤ k ∧ k ≤ 1 ∧
        (fun id => decide (id = 7))
          ((fun i j k => i + 2 * j + 4 * k : ℤ → ℤ → ℤ → ℤ) i j k) = true) := by
  intro hiff
  have hex : ∃ i j k : ℤ, 0 ≤ i ∧ i ≤ 1 ∧ 0 ≤ j ∧ j ≤ 1 ∧ 0 ≤ k ∧ k ≤ 1 ∧
      (fun id => decide (id = 7))
        ((fun i j k => i + 2 * j + 4 * k : ℤ → ℤ → ℤ → ℤ) i j k) = true :=
    ⟨1, 1, 1, by norm_num, by norm_num, by norm_num, by norm_num,
      by norm_num, by norm_num, by decide⟩
  have hc := hiff.mpr hex
  have hev : cellFlagged (fun id => decide (id = 7))
      (fun i j k => i + 2 * j + 4 * k) (0, 0, 0) (1, 1, 1) = false := by decide
  rw [hev] at hc
  exact absurd hc (by decide)

/-- Claim C6 (amended): an octree cell's flag is true iff some proxy cell
with lattice index in the HALF-OPEN range `[i0, i1)` (componentwise: lower
corner lookup inclusive, upper corner lookup exclusive) is in the proxy
narrow band. -/
theorem cellFlagged_iff_band_sample_in_range (inBand : Int → Bool)
    (lid : ℤ → ℤ → ℤ → Int) (i0 i1 : ℤ × ℤ × ℤ) :
    cellFlagged inBand lid i0 i1 = true ↔
      ∃ i j k : ℤ, i0.1 ≤ i ∧ i < i1.1 ∧ i0.2.1 ≤ j ∧ j < i1.2.1 ∧
        i0.2.2 ≤ k ∧ k < i1.2.2 ∧ inBand (lid i j k) = true := by
  unfold cellFlagged
  simp only [List.any_eq_true]
  constructor
  · rintro ⟨k, hk, j, hj, i, hi, h⟩
    rw [rangeZ_mem] at hk hj hi
    exact ⟨i, j, k, hi.1, hi.2, hj.1, hj.2, hk.1, hk.2, h⟩
  · rintro ⟨i, j, k, hi1, hi2, hj1, hj2, hk1, hk2, h⟩
    exact ⟨k, (rangeZ_mem _ _ _).mpr ⟨hk1, hk2⟩, j,
      (rangeZ_mem _ _ _).mpr ⟨hj1, hj2⟩, i,
      (rangeZ_mem _ _ _).mpr ⟨hi1, hi2⟩, h⟩

/-- Claim C4: when the mesh and surface bounding boxes do not intersect,
the octree `computeSizeNarrowBand` returns the state untouched — `RSearch`
is not written (whatever it was, assigned or not) and the store is not
touched — and if the store is empty every membership query answers
false. -/
theorem octree_compute_no_intersection
    (meshBB0 meshBB1 surfBB0 surfBB1 : Fin 3 → ℚ) (lts : ℕ → ℝ)
    (cellLevel : Int → ℕ) (cells : List Int) (proxyBand : Int → Bool)
    (loc0 loc1 : Int → ℤ × ℤ × ℤ) (lid : ℤ → ℤ → ℤ → Int) (st : LSState)
    (h : intersectBoxBox meshBB0 meshBB1 surfBB0 surfBB1 = false) :
    octreeComputeSizeNarrowBand meshBB0 meshBB1 surfBB0 surfBB1 lts cellLevel
        cells proxyBand loc0 loc1 lid st = st ∧
    (st.info = [] → ∀ id,
      isInNarrowBand (octreeComputeSizeNarrowBand meshBB0 meshBB1 surfBB0
          surfBB1 lts cellLevel cells proxyBand loc0 loc1 lid st).info id =
        false) := by
  have hcond : ¬(intersectBoxBox meshBB0 meshBB1 surfBB0 surfBB1 = true) := by
    rw [h]
    exact Bool.false_ne_true
  have h1 : octreeComputeSizeNarrowBand meshBB0 meshBB1 surfBB0 surfBB1 lts
      cellLevel cells proxyBand loc0 loc1 lid st = st := by
    unfold octreeComputeSizeNarrowBand
    rw [if_neg hcond]
  refine ⟨h1, ?_⟩
  intro he id
  rw [h1, he]
  rfl

/-- Witness for C4: mesh box `[0,1]^3`, surface box `[2,3]^3` (disjoint),
starting from the freshly-constructed state (`RSearch` unset, empty
store). -/
theorem octree_compute_no_intersection_witness :
    intersectBoxBox (fun _ => 0) (fun _ => 1) (fun _ => 2) (fun _ => 3) =
      false ∧
    (octreeComputeSizeNarrowBand (fun _ => 0) (fun _ => 1) (fun _ => 2)
        (fun _ => 3) (fun _ => 0) (fun _ => 0) [] (fun _ => false)
        (fun _ => (0, 0, 0)) (fun _ => (0, 0, 0)) (fun _ _ _ => 0)
        ⟨none, []⟩ = ⟨none, []⟩ ∧
     ((⟨none, []⟩ : LSState).info = [] → ∀ id,
       isInNarrowBand (octreeComputeSizeNarrowBand (fun _ => 0) (fun _ => 1)
          (fun _ => 2) (fun _ => 3) (fun _ => 0) (fun _ => 0) []
          (fun _ => false) (fun _ => (0, 0, 0)) (fun _ => (0, 0, 0))
          (fun _ _ _ => 0) ⟨none, []⟩).info id = false)) := by
  refine ⟨by decide, ?_⟩
  exact octree_compute_no_intersection (fun _ => 0) (fun _ => 1) (fun _ => 2)
    (fun _ => 3) (fun _ => 0) (fun _ => 0) [] (fun _ => false)
    (fun _ => (0, 0, 0)) (fun _ => (0, 0, 0)) (fun _ _ _ => 0) ⟨none, []⟩
    (by decide)

/-- Claim C10: `updateSizeNarrowBand` is embedded as a pure function of the
state (its body only reads `info` and the mesh, writing no member), and
`update` hands the UNMODIFIED state — old `RSearch`, old store — to the
visitor together with the new radius as an argument, overwriting the member
`RSearch` only afterwards. -/
theorem octree_update_frame (lts : ℕ → ℝ) (cellLevel : Int → ℕ)
    (visitor : LSState → List AdaptInfo → ℝ → LSState) (st : LSState)
    (mapper : List AdaptInfo) :
    octreeUpdate lts cellLevel visitor st mapper =
      { visitor st mapper (octreeUpdateSizeNarrowBand lts cellLevel st mapper)
        with
        RSearch := some (octreeUpdateSizeNarrowBand lts cellLevel st mapper) } ∧
    (octreeUpdate lts cellLevel visitor st mapper).RSearch =
      some (octreeUpdateSizeNarrowBand lts cellLevel st mapper) ∧
    (octreeUpdate lts cellLevel visitor st mapper).info =
      (visitor st mapper
        (octreeUpdateSizeNarrowBand lts cellLevel st mapper)).info :=
  ⟨rfl, rfl, rfl⟩

theorem set_rsearch_eta (s : LSState) (r : ℝ) (h : s.RSearch = some r) :
    ({ s with RSearch := some r } : LSState) = s := by
  cases s
  simp_all

theorem c8_radius_eval (R : Option ℝ) :
    octreeUpdateSizeNarrowBand (fun _ => 2) (fun _ => 3)
      ⟨R, [((1 : Int), LSInfo.mk 0 0)]⟩ [] = Real.sqrt 11 := by
  have hmin : minLevel (fun _ => 3)
      (updateNB (isInNarrowBand [((1 : Int), LSInfo.mk 0 0)]) []
        (snapshotNB [((1 : Int), LSInfo.mk 0 0)])) = 3 := by
    decide
  show computeRSearchFromLevel (fun _ => 2)
      (minLevel (fun _ => 3)
        (updateNB (isInNarrowBand [((1 : Int), LSInfo.mk 0 0)]) []
          (snapshotNB [((1 : Int), LSInfo.mk 0 0)]))) = Real.sqrt 11
  rw [hmin]
  unfold computeRSearchFromLevel
  ring

/-- Claim C8 counterexample: a state whose band holds the single cell 1 at
level 3 but whose stored radius is 999 (any value differing from the
level-3 radius).  An empty adaptation batch still recomputes `RSearch`
from the band's coarsest level — `2 * sqrt 11 / 2 = sqrt 11 ≠ 999` — so
the radius is NOT left unchanged. -/
theorem octree_update_empty_batch_counterexample :
    isInNarrowBand [((1 : Int), LSInfo.mk 0 0)] 1 = true ∧
    (octreeUpdate (fun _ => 2) (fun _ => 3) (fun s _ _ => s)
        ⟨some 999, [((1 : Int), LSInfo.mk 0 0)]⟩ []).RSearch ≠ some 999 := by
  refine ⟨rfl, ?_⟩
  have hR : (octreeUpdate (fun _ => 2) (fun _ => 3) (fun s _ _ => s)
      ⟨some 999, [((1 : Int), LSInfo.mk 0 0)]⟩ []).RSearch =
      some (octreeUpdateSizeNarrowBand (fun _ => 2) (fun _ => 3)
        ⟨some 999, [((1 : Int), LSInfo.mk 0 0)]⟩ []) := rfl
  rw [hR, c8_radius_eval]
  intro hc
  have h11 : Real.sqrt 11 = 999 := Option.some.inj hc
  have hle : Real.sqrt 11 ≤ 11 := by
    have h121 : Real.sqrt 121 = 11 := by
      rw [show (121 : ℝ) = 11 ^ 2 by norm_num, Real.sqrt_sq (by norm_num)]
    calc Real.sqrt 11 ≤ Real.sqrt 121 := Real.sqrt_le_sqrt (by norm_num)
    _ = 11 := h121
  linarith

/-- Claim C8 (amended): an empty adaptation batch leaves the working set
and the store unchanged (the visitor receives the unmodified state), and
leaves `RSearch` unchanged provided the stored radius already equals the
radius recomputed from the band's coarsest level — the invariant that
`compute`/`update` maintain; the radius is recomputed, not preserved. -/
theorem octree_update_empty_batch (lts : ℕ → ℝ) (cellLevel : Int → ℕ)
    (visitor : LSState → List AdaptInfo → ℝ → LSState) (st : LSState)
    (hv : visitor st [] (octreeUpdateSizeNarrowBand lts cellLevel st []) = st)
    (hr : st.RSearch =
      some (octreeUpdateSizeNarrowBand lts cellLevel st [])) :
    updateNB (isInNarrowBand st.info) [] (snapshotNB st.info) =
      snapshotNB st.info ∧
    octreeUpdate lts cellLevel visitor st [] = st := by
  refine ⟨rfl, ?_⟩
  show ({ visitor st [] (octreeUpdateSizeNarrowBand lts cellLevel st []) with
      RSearch := some (octreeUpdateSizeNarrowBand lts cellLevel st []) } :
    LSState) = st
  rw [hv]
  exact set_rsearch_eta st _ hr

/-- Witness for the amended C8: band `{1}` at level 3, stored radius
`sqrt 11` (the level-3 radius), identity visitor. -/
theorem octree_update_empty_batch_witness :
    ((fun (s : LSState) (_ : List AdaptInfo) (_ : ℝ) => s)
        (⟨some (Real.sqrt 11), [((1 : Int), LSInfo.mk 0 0)]⟩ : LSState) []
        (octreeUpdateSizeNarrowBand (fun _ => 2) (fun _ => 3)
          ⟨some (Real.sqrt 11), [((1 : Int), LSInfo.mk 0 0)]⟩ []) =
        (⟨some (Real.sqrt 11), [((1 : Int), LSInfo.mk 0 0)]⟩ : LSState) ∧
     (⟨some (Real.sqrt 11), [((1 : Int), LSInfo.mk 0 0)]⟩ : LSState).RSearch =
        some (octreeUpdateSizeNarrowBand (fun _ => 2) (fun _ => 3)
          ⟨some (Real.sqrt 11), [((1 : Int), LSInfo.mk 0 0)]⟩ [])) ∧
    (updateNB
        (isInNarrowBand
          (⟨some (Real.sqrt 11), [((1 : Int), LSInfo.mk 0 0)]⟩ : LSState).info)
        []
        (snapshotNB
          (⟨some (Real.sqrt 11),
            [((1 : Int), LSInfo.mk 0 0)]⟩ : LSState).info) =
      snapshotNB
        (⟨some (Real.sqrt 11), [((1 : Int), LSInfo.mk 0 0)]⟩ : LSState).info ∧
     octreeUpdate (fun _ => 2) (fun _ => 3) (fun s _ _ => s)
        ⟨some (Real.sqrt 11), [((1 : Int), LSInfo.mk 0 0)]⟩ [] =
        ⟨some (Real.sqrt 11), [((1 : Int), LSInfo.mk 0 0)]⟩) := by
  have hr : (⟨some (Real.sqrt 11),
      [((1 : Int), LSInfo.mk 0 0)]⟩ : LSState).RSearch =
      some (octreeUpdateSizeNarrowBand (fun _ => 2) (fun _ => 3)
        ⟨some (Real.sqrt 11), [((1 : Int), LSInfo.mk 0 0)]⟩ []) := by
    rw [c8_radius_eval]
  exact ⟨⟨rfl, hr⟩, octree_update_empty_batch (fun _ => 2) (fun _ => 3)
    (fun s _ _ => s) ⟨some (Real.sqrt 11), [((1 : Int), LSInfo.mk 0 0)]⟩
    rfl hr⟩
